import Mathlib

/-!
Shallow embedding of src/review.py (MedRAG slide-deck generator).

Python strings are modelled as `List Char`.  The external collaborators
(the chat-completion clients, the MedRAG generator, `json.loads`, and the
pptx library internals) are out of scope per the specification; where one
of their results enters the code under verification it is passed in as an
argument.  Machine-level details that no claim touches (slide geometry in
inches, the floating-point line-spacing value) are modelled exactly where
stated in the doc comments below.
-/

/-- Python strings, modelled as lists of characters. -/
abbrev Str := List Char

/-- Characters matched by the regex class backslash-s and by the no-argument
form of the Python method strip, restricted to the ASCII range that the
repository ever manipulates. -/
def pyIsSpace (c : Char) : Bool :=
  c = ' ' || c = '\t' || c = '\n' || c = '\r' || c = '\x0b' || c = '\x0c'

/-- The ASCII uppercase-to-lowercase table used to model the Python method
lower.  The repository only ever lowercases ASCII subject labels. -/
def upperLowerTable : List (Char × Char) :=
  [('A', 'a'), ('B', 'b'), ('C', 'c'), ('D', 'd'), ('E', 'e'), ('F', 'f'),
   ('G', 'g'), ('H', 'h'), ('I', 'i'), ('J', 'j'), ('K', 'k'), ('L', 'l'),
   ('M', 'm'), ('N', 'n'), ('O', 'o'), ('P', 'p'), ('Q', 'q'), ('R', 'r'),
   ('S', 's'), ('T', 't'), ('U', 'u'), ('V', 'v'), ('W', 'w'), ('X', 'x'),
   ('Y', 'y'), ('Z', 'z')]

/-- Lowercase one character, as the Python method lower does on ASCII. -/
def pyLower (c : Char) : Char :=
  (List.lookup c upperLowerTable).getD c

/-- Keep the characters that the regex `[,\(\)]` does not match:
`re.sub(r"[,\(\)]", "", s)` deletes commas and parentheses. -/
def removePunct (s : Str) : Str :=
  s.filter (fun c => !(c = ',' || c = '(' || c = ')'))

/-- Scanner for `re.sub(r"\s+", "_", s)`.  The flag records whether the scan
is inside a whitespace run whose underscore has already been emitted. -/
def collapseWsAux : Bool → Str → Str
  | _, [] => []
  | inRun, c :: rest =>
    if pyIsSpace c then
      if inRun then collapseWsAux true rest
      else '_' :: collapseWsAux true rest
    else c :: collapseWsAux false rest

/-- Replace every maximal run of whitespace by a single underscore, as
`re.sub(r"\s+", "_", s)` does. -/
def collapseWs (s : Str) : Str := collapseWsAux false s

/-- Translation of `sanitize_filename` (src/review.py lines 24 to 29):
lowercase, delete commas and parentheses, collapse whitespace runs to a
single underscore. -/
def sanitize_filename (s : Str) : Str :=
  collapseWs (removePunct (s.map pyLower))

/-- Strip leading whitespace. -/
def stripLeft (s : Str) : Str := s.dropWhile pyIsSpace

/-- Translation of the no-argument Python method strip: drop whitespace
from both ends. -/
def stripWs (s : Str) : Str :=
  ((s.dropWhile pyIsSpace).reverse.dropWhile pyIsSpace).reverse

/-- Locate the first occurrence of `pat` in `s`: returns the text before it
and the text after it.  `none` when `pat` does not occur (or is empty; the
repository only searches for the nonempty needles "json", three backticks,
and a period). -/
def splitOnFirst (pat : Str) : Str → Option (Str × Str)
  | [] => none
  | c :: rest =>
    if pat ≠ [] ∧ pat.isPrefixOf (c :: rest) then
      some ([], (c :: rest).drop pat.length)
    else
      match splitOnFirst pat rest with
      | none => none
      | some (pre, post) => some (c :: pre, post)

/-- Whether `pat` occurs in `s`, the Python test `pat in s`. -/
def containsSub (pat s : Str) : Bool := (splitOnFirst pat s).isSome

/-- Text strictly before the first occurrence of `pat`, or all of `s` when
`pat` does not occur: Python `s.split(pat)[0]`. -/
def beforeFirstOr (pat s : Str) : Str :=
  match splitOnFirst pat s with
  | some (pre, _) => pre
  | none => s

/-- Text strictly after the first occurrence of `pat`, or all of `s` when
`pat` does not occur. -/
def afterFirstTot (pat s : Str) : Str :=
  match splitOnFirst pat s with
  | some (_, post) => post
  | none => s

/-- Translation of the Python expression `s.split(pat)[1]`: the method
split returns the pieces lying between consecutive occurrences of the
separator, so piece number 1 is the text between the first and the second
occurrence, or everything after the first occurrence when it is the only
one.  The `none` branch is the out-of-range access that Python would
reject; in the source it is guarded by the test `pat in s`. -/
def pySplitGet1 (pat s : Str) : Str :=
  match splitOnFirst pat s with
  | none => s
  | some (_, post) =>
    match splitOnFirst pat post with
    | none => post
    | some (pre2, _) => pre2

/-- The needle of the test at src/review.py line 129. -/
def jsonTok : Str := "json".data

/-- A fenced-code-block marker of three backticks. -/
def fenceTok : Str := "```".data

/-- Translation of the payload extraction in `create_ppt_for_subject`
(src/review.py lines 129 to 132): when the raw payload contains "json",
the string handed to the JSON parser is
`q.split('json')[1].split('```')[0]`; otherwise the whole payload is
handed over unchanged. -/
def extract_payload (q : Str) : Str :=
  if containsSub jsonTok q then beforeFirstOr fenceTok (pySplitGet1 jsonTok q)
  else q

/-- Split at every newline character, keeping empty segments: the Python
expression `s.split('\n')`. -/
def splitOnNl : Str → List Str
  | [] => [[]]
  | c :: rest =>
    if c = '\n' then [] :: splitOnNl rest
    else
      match splitOnNl rest with
      | [] => [[c]]
      | l :: ls => (c :: l) :: ls

/-- Drop the final segment when it is empty.  Combined with `splitOnNl`
this reproduces the Python method splitlines on text whose only line
terminator is the newline character: a trailing newline does not open an
extra empty line, and the empty string has no lines. -/
def dropTrailingEmpty : List Str → List Str
  | [] => []
  | [l] => if l = [] then [] else [l]
  | l :: rest => l :: dropTrailingEmpty rest

/-- Model of the Python method splitlines for newline-terminated text. -/
def pySplitlines (s : Str) : List Str :=
  dropTrailingEmpty (splitOnNl s)

/-- Translation of one iteration of the parsing loop in
`get_high_yield_concepts` (src/review.py lines 49 to 58): strip the line;
skip it when empty; otherwise split on the first period and keep the
stripped remainder when a period is present, else keep the stripped line
itself. -/
def parseLine (raw : Str) : Option Str :=
  let line := stripWs raw
  if line = [] then none
  else
    match splitOnFirst ['.'] line with
    | some (_, post) => some (stripWs post)
    | none => some line

/-- Translation of `get_high_yield_concepts` (src/review.py lines 31 to
59).  The chat-completion request is an external collaborator, so the
model takes the response text as its input and performs the parsing and
truncation that the source performs on it. -/
def get_high_yield_concepts (concepts_text : Str) (num_questions : Nat) : List Str :=
  ((pySplitlines concepts_text).filterMap parseLine).take num_questions

/-- Join a list of lines with newline separators; used to state claims
about the line-splitting behaviour. -/
def joinLines : List Str → Str
  | [] => []
  | [l] => l
  | l :: rest => l ++ '\n' :: joinLines rest

/-- Fuel-indexed scanner for the Python method replace with an empty
replacement: delete every leftmost non-overlapping occurrence of `pat`.
When an occurrence is found the scan resumes after it, which the fuel
makes structurally evident. -/
def pyDeleteAllFuel (pat : Str) : Nat → Str → Str
  | _, [] => []
  | 0, s => s
  | fuel + 1, c :: rest =>
    if pat ≠ [] ∧ pat.isPrefixOf (c :: rest) then
      pyDeleteAllFuel pat fuel (rest.drop (pat.length - 1))
    else c :: pyDeleteAllFuel pat fuel rest

/-- Translation of the Python expression `s.replace(pat, '')`: remove all
occurrences of `pat` from `s`.  A fuel of the length of `s` suffices since
every step consumes at least one character. -/
def pyDeleteAll (pat s : Str) : Str := pyDeleteAllFuel pat s.length s

/-- Remove `pat` once when it is a leading prefix of `s`; this is the
reading of the claims that speak of a prefix being stripped, used to
compare the claimed behaviour with the replace-all behaviour of the
source. -/
def removeLeading (pat s : Str) : Str :=
  if pat.isPrefixOf s then s.drop pat.length else s

/-- The question record produced by parsing a generator payload
(src/review.py lines 61 to 65 and the accesses in the function body).
Mappings keep insertion order, as Python dicts do; lookups take the first
matching key. -/
structure Question where
  question : Str
  options : List (Str × Str)
  correct_answer : Str
  explanation : List (Str × Str)
deriving DecidableEq

/-- Python dict lookup on an insertion-ordered association list. -/
def dictGet? (d : List (Str × Str)) (k : Str) : Option Str :=
  List.lookup k d

/-- One paragraph of a slide text frame.  Fields that a given paragraph
never assigns stay `none`, matching a freshly added pptx paragraph.  The
floating-point line spacing `Pt(size * 1.15)` is recorded exactly in
hundredths of a point (16 * 1.15 pt = 1840 centipoints). -/
structure Paragraph where
  text : Str
  fontSizePt : Option Nat := none
  fontName : Option Str := none
  colorRGB : Option (Nat × Nat × Nat) := none
  lineSpacingCentiPt : Option Nat := none
deriving DecidableEq

/-- RGBColor(54, 54, 54), the normal text colour of every paragraph. -/
def normalColor : Nat × Nat × Nat := (54, 54, 54)

/-- RGBColor(255, 0, 0), the highlight colour. -/
def highlightColor : Nat × Nat × Nat := (255, 0, 0)

/-- The font name assigned to every formatted paragraph. -/
def proximaFont : Str := "Proxima Nova Regular".data

/-- The stem paragraph (src/review.py lines 77 to 82). -/
def mkStemPara (stem : Str) : Paragraph :=
  { text := stem ++ "\n".data
    fontSizePt := some 16
    fontName := some proximaFont
    colorRGB := some normalColor
    lineSpacingCentiPt := some 1840 }

/-- One answer-choice paragraph (src/review.py lines 85 to 93).  The colour
is first set to the normal colour and overwritten with the highlight
colour when highlighting is on and the stripped label equals the stripped
correct answer. -/
def mkOptionPara (ca : Str) (highlight : Bool) (label text : Str) : Paragraph :=
  { text := label ++ ": ".data ++ text
    fontSizePt := some 16
    fontName := some proximaFont
    colorRGB := some (if highlight ∧ stripWs label = stripWs ca
      then highlightColor else normalColor)
    lineSpacingCentiPt := some 1840 }

/-- The empty separator paragraph (src/review.py lines 95 to 96); no
formatting attribute is assigned to it. -/
def blankPara : Paragraph := { text := [] }

/-- The explanation paragraph for the correct choice (src/review.py lines
100 to 105): every occurrence of "Correct. " is removed by the Python
method replace. -/
def mkCorrectPara (ca explText : Str) : Paragraph :=
  { text := ca ++ ": ".data ++ pyDeleteAll "Correct. ".data explText ++ "\n".data
    fontSizePt := some 12
    fontName := some proximaFont
    colorRGB := some highlightColor
    lineSpacingCentiPt := some 1380 }

/-- An explanation paragraph for an incorrect choice (src/review.py lines
109 to 114): every occurrence of "Incorrect. " is removed. -/
def mkIncorrectPara (label explText : Str) : Paragraph :=
  { text := label ++ ": ".data ++ pyDeleteAll "Incorrect. ".data explText ++ "\n".data
    fontSizePt := some 12
    fontName := some proximaFont
    colorRGB := some normalColor
    lineSpacingCentiPt := some 1380 }

/-- Errors that the embedded fragments of the script can raise. -/
inductive PyError where
  | jsonDecodeError
  | keyError
  | typeErrorDuplicateArgument
deriving DecidableEq

/-- Translation of the loop at src/review.py lines 107 to 114: walk the
options in order and, for every label not exactly equal to the correct
answer, add its explanation paragraph; a missing explanation entry raises
KeyError there. -/
def incorrectParas (explan : List (Str × Str)) (ca : Str) :
    List (Str × Str) → Except PyError (List Paragraph)
  | [] => Except.ok []
  | (label, _) :: rest =>
    if label = ca then incorrectParas explan ca rest
    else
      match dictGet? explan label with
      | none => Except.error PyError.keyError
      | some e =>
        match incorrectParas explan ca rest with
        | Except.error er => Except.error er
        | Except.ok ps => Except.ok (mkIncorrectPara label e :: ps)

/-- Translation of `add_slide_with_content` (src/review.py lines 61 to
116), returning the ordered paragraph list of the created slide.  The
blank-layout selection and the textbox geometry in inches carry no claim
content and are not part of the paragraph model. -/
def add_slide_with_content (q : Question) (highlight include_explanation : Bool) :
    Except PyError (List Paragraph) :=
  let stem := mkStemPara q.question
  let opts := q.options.map (fun p => mkOptionPara q.correct_answer highlight p.1 p.2)
  if include_explanation then
    match dictGet? q.explanation q.correct_answer with
    | none => Except.error PyError.keyError
    | some e =>
      match incorrectParas q.explanation q.correct_answer q.options with
      | Except.error er => Except.error er
      | Except.ok incs =>
        Except.ok (stem :: opts ++ blankPara :: mkCorrectPara q.correct_answer e :: incs)
  else Except.ok (stem :: opts ++ [blankPara])

/-- A persisted presentation: the output path and the ordered slides, each
slide being its paragraph list. -/
structure SavedDeck where
  path : Str
  slides : List (List Paragraph)
deriving DecidableEq

/-- The output path `os.path.join('deepseek', sanitize_filename(subject) + '.pptx')`
of src/review.py lines 138 to 139. -/
def deckPath (subject : Str) : Str :=
  "deepseek/".data ++ sanitize_filename subject ++ ".pptx".data

/-- Parse one raw payload as the loop head of `create_ppt_for_subject`
does (src/review.py lines 129 to 132): extract the JSON text, then hand
it to the JSON parser.  `json.loads` belongs to an external library, so
the parser is an argument; returning `none` is its decode failure. -/
def parsePayload (loads : Str → Option Question) (q : Str) : Except PyError Question :=
  match loads (extract_payload q) with
  | some question => Except.ok question
  | none => Except.error PyError.jsonDecodeError

/-- One loop iteration of `create_ppt_for_subject` (src/review.py lines
128 to 136).  After a successful parse the source calls
`add_slide_with_content(prs, q, idx, highlight=False, include_explanation=False)`:
the loop index is passed positionally, binds to the `highlight` parameter,
and `highlight` is then passed again by keyword, so Python raises
TypeError before any paragraph of either slide is rendered. -/
def renderOne (loads : Str → Option Question) (q : Str) :
    Except PyError (List Paragraph × List Paragraph) :=
  match parsePayload loads q with
  | Except.error e => Except.error e
  | Except.ok _ => Except.error PyError.typeErrorDuplicateArgument

/-- The loop of `create_ppt_for_subject`: process payloads in order,
collecting the two slides of each question; the first exception aborts
the remainder. -/
def buildSlides (loads : Str → Option Question) :
    List Str → Except PyError (List (List Paragraph))
  | [] => Except.ok []
  | q :: rest =>
    match renderOne loads q with
    | Except.error e => Except.error e
    | Except.ok (s1, s2) =>
      match buildSlides loads rest with
      | Except.error e => Except.error e
      | Except.ok ss => Except.ok (s1 :: s2 :: ss)

/-- Translation of `create_ppt_for_subject` (src/review.py lines 118 to
140): render all questions, then save the deck.  An `Except.ok` value is
the file write performed by `prs.save`; an `Except.error` propagates the
uncaught Python exception, in which case the save line is never reached
and nothing is written for the subject. -/
def create_ppt_for_subject (loads : Str → Option Question) (subject : Str)
    (questions : List Str) : Except PyError SavedDeck :=
  match buildSlides loads questions with
  | Except.error e => Except.error e
  | Except.ok ss => Except.ok { path := deckPath subject, slides := ss }

instance {ε α : Type} [DecidableEq ε] [DecidableEq α] : DecidableEq (Except ε α) := fun x y =>
  match x, y with
  | Except.ok a, Except.ok b =>
    match decEq a b with
    | isTrue h => isTrue (congrArg Except.ok h)
    | isFalse h => isFalse (fun hh => h (Except.ok.inj hh))
  | Except.error a, Except.error b =>
    match decEq a b with
    | isTrue h => isTrue (congrArg Except.error h)
    | isFalse h => isFalse (fun hh => h (Except.error.inj hh))
  | Except.ok _, Except.error _ => isFalse (fun hh => Except.noConfusion hh)
  | Except.error _, Except.ok _ => isFalse (fun hh => Except.noConfusion hh)

/-- A well-formed question payload in the sense of the claims: a non-empty
options mapping, a correct answer whose label is present in the options,
and an explanation entry for every option label. -/
def WellFormed (q : Question) : Prop :=
  q.options ≠ [] ∧
  q.correct_answer ∈ q.options.map Prod.fst ∧
  ∀ p ∈ q.options, (dictGet? q.explanation p.1).isSome = true

instance (q : Question) : Decidable (WellFormed q) := by
  unfold WellFormed; infer_instance

/-- Total explanation lookup, defaulting to the empty string; under
`WellFormed` it agrees with the partial dict access of the source. -/
def explGetD (q : Question) (label : Str) : Str :=
  (dictGet? q.explanation label).getD []

/-- Modelled from the claim wording of C2: the highlighted and explained
slide colours exactly the option paragraph whose label equals
`correct_answer`, leaves all other option paragraphs in the normal
colour, and appends the explanation of the correct choice with its
leading "Correct. " prefix removed, followed by one explanation per
incorrect choice with its leading "Incorrect. " prefix removed, at the
smaller font size. -/
def renderC2Claim (q : Question) : List Paragraph :=
  mkStemPara q.question ::
    q.options.map (fun p =>
      { text := p.1 ++ ": ".data ++ p.2
        fontSizePt := some 16
        fontName := some proximaFont
        colorRGB := some (if p.1 = q.correct_answer then highlightColor else normalColor)
        lineSpacingCentiPt := some 1840 }) ++
    blankPara ::
    { text := q.correct_answer ++ ": ".data ++
        removeLeading "Correct. ".data (explGetD q q.correct_answer) ++ "\n".data
      fontSizePt := some 12
      fontName := some proximaFont
      colorRGB := some highlightColor
      lineSpacingCentiPt := some 1380 } ::
    (q.options.filter (fun p => !(p.1 = q.correct_answer))).map (fun p =>
      { text := p.1 ++ ": ".data ++
          removeLeading "Incorrect. ".data (explGetD q p.1) ++ "\n".data
        fontSizePt := some 12
        fontName := some proximaFont
        colorRGB := some normalColor
        lineSpacingCentiPt := some 1380 })

/-- The amended rendering of the highlighted and explained slide: the
stem, then one paragraph per option whose colour is the highlight colour
exactly when the stripped label equals the stripped correct answer, a
blank paragraph, the explanation for the correct choice with every
occurrence of "Correct. " removed, and one explanation per label not
exactly equal to the correct answer with every occurrence of
"Incorrect. " removed, the explanations at 12pt against 16pt. -/
def renderC2Amended (q : Question) : List Paragraph :=
  mkStemPara q.question ::
    q.options.map (fun p =>
      { text := p.1 ++ ": ".data ++ p.2
        fontSizePt := some 16
        fontName := some proximaFont
        colorRGB := some (if stripWs p.1 = stripWs q.correct_answer
          then highlightColor else normalColor)
        lineSpacingCentiPt := some 1840 }) ++
    blankPara ::
    { text := q.correct_answer ++ ": ".data ++
        pyDeleteAll "Correct. ".data (explGetD q q.correct_answer) ++ "\n".data
      fontSizePt := some 12
      fontName := some proximaFont
      colorRGB := some highlightColor
      lineSpacingCentiPt := some 1380 } ::
    (q.options.filter (fun p => !(p.1 = q.correct_answer))).map (fun p =>
      { text := p.1 ++ ": ".data ++
          pyDeleteAll "Incorrect. ".data (explGetD q p.1) ++ "\n".data
        fontSizePt := some 12
        fontName := some proximaFont
        colorRGB := some normalColor
        lineSpacingCentiPt := some 1380 })

/-- Modelled from the claim wording of C3: the payload between the first
occurrence of the marker and the next closing fence marker is parsed when
the marker is present, else the whole string. -/
def claimedExtractC3 (q : Str) : Str :=
  if containsSub jsonTok q then beforeFirstOr fenceTok (afterFirstTot jsonTok q)
  else q

/-- A small well-formed demonstration question. -/
def qDemo : Question :=
  { question := "Which vessel?".data
    options := [("A".data, "Aorta".data), ("B".data, "IVC".data)]
    correct_answer := "B".data
    explanation := [("A".data, "Incorrect. No.".data), ("B".data, "Correct. Yes.".data)] }

/-- A well-formed question whose second option label differs from the
correct answer only by a trailing space: the source highlights it yet also
emits an incorrect-choice explanation for it. -/
def qCE : Question :=
  { question := "Q".data
    options := [("B".data, "first".data), ("B ".data, "second".data)]
    correct_answer := "B".data
    explanation := [("B".data, "Correct. X".data), ("B ".data, "Incorrect. Y".data)] }

/-- A stand-in for `json.loads` succeeding with `qDemo` on any input text
handed to it. -/
def loadsDemo : Str → Option Question := fun _ => some qDemo

/-- A stand-in for `json.loads` failing on any input text. -/
def loadsNone : Str → Option Question := fun _ => none

/-- A raw generator payload with no fenced-block marker. -/
def payloadDemo : Str :=
  "\x7b\"stem\": \"Which vessel?\"\x7d".data

/-- The C3 counterexample payload: a fenced block with a leading "json"
tag whose JSON body itself contains the word "json". -/
def payloadC3 : Str := "```json [\"json\"] ```".data


theorem lookup_mem {t : List (Char × Char)} {c v : Char}
    (h : List.lookup c t = some v) : (c, v) ∈ t := by
  induction t with
  | nil => simp [List.lookup] at h
  | cons p rest ih =>
    rcases p with ⟨k, w⟩
    by_cases hc : c = k
    · subst hc
      simp [List.lookup] at h
      simp [h]
    · rw [List.lookup] at h
      have hbeq : (c == k) = false := by simp [hc]
      rw [hbeq] at h
      exact List.mem_cons_of_mem _ (ih h)

theorem pyLower_idem (c : Char) : pyLower (pyLower c) = pyLower c := by
  unfold pyLower
  cases h : List.lookup c upperLowerTable with
  | none => simp [h]
  | some v =>
    have hv : (c, v) ∈ upperLowerTable := lookup_mem h
    simp only [h, Option.getD_some]
    fin_cases hv <;> decide

theorem mem_collapseWsAux {c : Char} (l : Str) :
    ∀ b, c ∈ collapseWsAux b l → c = '_' ∨ (c ∈ l ∧ pyIsSpace c = false) := by
  induction l with
  | nil => intro b h; simp [collapseWsAux] at h
  | cons d rest ih =>
    intro b h
    by_cases hd : pyIsSpace d = true
    · rw [collapseWsAux] at h
      simp only [hd, if_true] at h
      cases b with
      | true =>
        rcases ih true h with h1 | ⟨h2, h3⟩
        · exact Or.inl h1
        · exact Or.inr ⟨List.mem_cons_of_mem _ h2, h3⟩
      | false =>
        rcases List.mem_cons.mp h with h1 | h1
        · exact Or.inl h1
        · rcases ih true h1 with h2 | ⟨h2, h3⟩
          · exact Or.inl h2
          · exact Or.inr ⟨List.mem_cons_of_mem _ h2, h3⟩
    · rw [collapseWsAux] at h
      simp only [hd, if_false, Bool.false_eq_true] at h
      rcases List.mem_cons.mp h with h1 | h1
      · subst h1
        exact Or.inr ⟨List.mem_cons_self _ _, by simpa using hd⟩
      · rcases ih false h1 with h2 | ⟨h2, h3⟩
        · exact Or.inl h2
        · exact Or.inr ⟨List.mem_cons_of_mem _ h2, h3⟩

theorem collapseWsAux_id (l : Str) (hl : ∀ c ∈ l, pyIsSpace c = false) :
    ∀ b, collapseWsAux b l = l := by
  induction l with
  | nil => intro b; rfl
  | cons d rest ih =>
    intro b
    have hd : pyIsSpace d = false := hl d (List.mem_cons_self _ _)
    rw [collapseWsAux]
    simp only [hd, Bool.false_eq_true, if_false]
    rw [ih (fun c hc => hl c (List.mem_cons_of_mem _ hc)) false]

theorem map_id_of_mem {f : Char → Char} :
    ∀ l : Str, (∀ c ∈ l, f c = c) → l.map f = l := by
  intro l
  induction l with
  | nil => intro _; rfl
  | cons d rest ih =>
    intro h
    rw [List.map_cons, h d (List.mem_cons_self _ _),
      ih (fun c hc => h c (List.mem_cons_of_mem _ hc))]

theorem mem_sanitize {c : Char} {s : Str} (h : c ∈ sanitize_filename s) :
    c = '_' ∨ (c ∈ (s.map pyLower).filter (fun c => !(c = ',' || c = '(' || c = ')')) ∧
      pyIsSpace c = false) := by
  unfold sanitize_filename collapseWs at h
  rcases mem_collapseWsAux _ false h with h1 | ⟨h2, h3⟩
  · exact Or.inl h1
  · exact Or.inr ⟨h2, h3⟩

theorem sanitize_char_good {c : Char} {s : Str} (h : c ∈ sanitize_filename s) :
    (!pyIsSpace c && !(c = ',') && !(c = '(') && !(c = ')')) = true := by
  rcases mem_sanitize h with h1 | ⟨h2, h3⟩
  · subst h1; decide
  · have hp := (List.mem_filter.mp h2).2
    simp only [Bool.not_eq_true', Bool.or_eq_false_iff, decide_eq_false_iff_not] at hp
    simp [h3, hp.1.1, hp.1.2, hp.2]

theorem sanitize_lower_fixed (s : Str) :
    (sanitize_filename s).map pyLower = sanitize_filename s := by
  apply map_id_of_mem
  intro c hc
  rcases mem_sanitize hc with h1 | ⟨h2, _⟩
  · subst h1; decide
  · have hm := (List.mem_filter.mp h2).1
    rcases List.mem_map.mp hm with ⟨d, _, hd⟩
    subst hd
    exact pyLower_idem d

theorem sanitize_ws_free (s : Str) : ∀ c ∈ sanitize_filename s, pyIsSpace c = false := by
  intro c hc
  have := sanitize_char_good hc
  simp only [Bool.and_eq_true, Bool.not_eq_true'] at this
  exact this.1.1.1

/-- C4: `sanitize_filename` removes commas and parentheses, collapses
whitespace runs to single underscores, and returns a lower-case string;
in particular the subject "renal, urology" sanitizes to "renal_urology".
The second conjunct shows a whitespace run and the string ends being
collapsed; the quantified conjuncts state that no whitespace, comma, or
parenthesis survives in any output and that the output is fixed by
lowercasing. -/
theorem c4_sanitize_shape :
    sanitize_filename "renal, urology".data = "renal_urology".data ∧
    sanitize_filename " renal,  (urology) ".data = "_renal_urology_".data ∧
    ∀ s : Str,
      ((sanitize_filename s).all
        (fun c => !pyIsSpace c && !(c = ',') && !(c = '(') && !(c = ')')) = true) ∧
      (sanitize_filename s).map pyLower = sanitize_filename s := by
  refine ⟨by decide, by decide, fun s => ⟨?_, sanitize_lower_fixed s⟩⟩
  exact List.all_eq_true.mpr (fun c hc => sanitize_char_good hc)

/-- C9: `sanitize_filename` is idempotent: sanitizing an already sanitized
string changes nothing, because the output contains no uppercase letter,
no comma or parenthesis, and no whitespace. -/
theorem c9_sanitize_idempotent :
    ∀ s : Str, sanitize_filename (sanitize_filename s) = sanitize_filename s := by
  intro s
  have h1 : (sanitize_filename s).map pyLower = sanitize_filename s :=
    sanitize_lower_fixed s
  have h2 : removePunct (sanitize_filename s) = sanitize_filename s := by
    apply List.filter_eq_self.mpr
    intro c hc
    have := sanitize_char_good hc
    simp only [Bool.and_eq_true, Bool.not_eq_true'] at this
    simp [this.1.1.2, this.1.2, this.2]
  calc sanitize_filename (sanitize_filename s)
      = collapseWs (removePunct ((sanitize_filename s).map pyLower)) := rfl
    _ = collapseWs (removePunct (sanitize_filename s)) := by rw [h1]
    _ = collapseWs (sanitize_filename s) := by rw [h2]
    _ = sanitize_filename s := collapseWsAux_id _ (sanitize_ws_free s) false

theorem parseLine_nil : parseLine [] = none := rfl

theorem filterMap_dropTrailingEmpty :
    ∀ ps : List Str, (dropTrailingEmpty ps).filterMap parseLine = ps.filterMap parseLine
  | [] => rfl
  | [l] => by
    by_cases hl : l = []
    · subst hl
      simp [dropTrailingEmpty, parseLine_nil]
    · simp [dropTrailingEmpty, hl]
  | l :: l2 :: rest => by
    have ih := filterMap_dropTrailingEmpty (l2 :: rest)
    have hd : dropTrailingEmpty (l :: l2 :: rest) = l :: dropTrailingEmpty (l2 :: rest) := rfl
    rw [hd, List.filterMap_cons, List.filterMap_cons]
    cases parseLine l with
    | none => exact ih
    | some v => rw [ih]

theorem splitOnNl_no_newline {l : Str} (h : '\n' ∉ l) : splitOnNl l = [l] := by
  induction l with
  | nil => rfl
  | cons c rest ih =>
    have hc : ¬(c = '\n') := fun hcc => h (hcc ▸ List.mem_cons_self _ _)
    have hr : '\n' ∉ rest := fun hm => h (List.mem_cons_of_mem _ hm)
    rw [splitOnNl]
    simp only [hc, if_false]
    rw [ih hr]

theorem splitOnNl_append {l : Str} (s : Str) (h : '\n' ∉ l) :
    splitOnNl (l ++ '\n' :: s) = l :: splitOnNl s := by
  induction l with
  | nil => simp [splitOnNl]
  | cons c rest ih =>
    have hc : ¬(c = '\n') := fun hcc => h (hcc ▸ List.mem_cons_self _ _)
    have hr : '\n' ∉ rest := fun hm => h (List.mem_cons_of_mem _ hm)
    rw [List.cons_append, splitOnNl]
    simp only [hc, if_false]
    rw [ih hr]

theorem splitOnNl_joinLines :
    ∀ ls : List Str, ls ≠ [] → (∀ l ∈ ls, '\n' ∉ l) → splitOnNl (joinLines ls) = ls
  | [], h, _ => absurd rfl h
  | [l], _, hnl => by
    rw [joinLines, splitOnNl_no_newline (hnl l (List.mem_cons_self _ _))]
  | l :: l2 :: rest, _, hnl => by
    have hj : joinLines (l :: l2 :: rest) = l ++ '\n' :: joinLines (l2 :: rest) := rfl
    rw [hj, splitOnNl_append _ (hnl l (List.mem_cons_self _ _))]
    rw [splitOnNl_joinLines (l2 :: rest) (by simp)
      (fun x hx => hnl x (List.mem_cons_of_mem _ hx))]

theorem splitOnFirst_single_none_iff (a : Char) :
    ∀ s : Str, splitOnFirst [a] s = none ↔ a ∉ s := by
  intro s
  induction s with
  | nil => simp [splitOnFirst]
  | cons c rest ih =>
    rw [splitOnFirst]
    by_cases hac : a = c
    · subst hac
      have hpre : [a].isPrefixOf (a :: rest) = true := by
        simp [List.isPrefixOf]
      simp [hpre]
    · have hpre : [a].isPrefixOf (c :: rest) = false := by
        simp [List.isPrefixOf, hac]
      simp only [hpre, Bool.false_eq_true, and_false, ne_eq, if_false]
      cases hs : splitOnFirst [a] rest with
      | none =>
        have hrest : a ∉ rest := ih.mp hs
        simp [List.mem_cons, hac, hrest]
      | some pp =>
        have hrest : a ∈ rest := by
          by_contra hn
          rw [← ih] at hn
          simp [hs] at hn
        simp [List.mem_cons, hrest]

/-- C5: the concept-line parser splits the response on newlines, skips
empty lines, and for each non-empty stripped line keeps the stripped text
after the first period when a period is present, else the stripped line
itself; the two concrete lines of the claim parse as stated. -/
theorem c5_concept_line_parsing :
    parseLine "3. Acute pancreatitis".data = some "Acute pancreatitis".data ∧
    parseLine "Acute pancreatitis".data = some "Acute pancreatitis".data ∧
    (∀ (ls : List Str) (n : Nat), (∀ l ∈ ls, '\n' ∉ l) →
      get_high_yield_concepts (joinLines ls) n = (ls.filterMap parseLine).take n) ∧
    (∀ raw : Str, stripWs raw = [] → parseLine raw = none) ∧
    (∀ raw : Str, stripWs raw ≠ [] → '.' ∈ stripWs raw →
      parseLine raw = some (stripWs (afterFirstTot ['.'] (stripWs raw)))) ∧
    (∀ raw : Str, stripWs raw ≠ [] → '.' ∉ stripWs raw →
      parseLine raw = some (stripWs raw)) := by
  refine ⟨by decide, by decide, ?_, ?_, ?_, ?_⟩
  · intro ls n hnl
    unfold get_high_yield_concepts pySplitlines
    rcases eq_or_ne ls [] with hls | hls
    · subst hls; rfl
    · rw [filterMap_dropTrailingEmpty, splitOnNl_joinLines ls hls hnl]
  · intro raw h
    simp [parseLine, h]
  · intro raw hne hdot
    have hsp : splitOnFirst ['.'] (stripWs raw) ≠ none := by
      rw [ne_eq, splitOnFirst_single_none_iff]
      simpa using hdot
    cases hs : splitOnFirst ['.'] (stripWs raw) with
    | none => exact absurd hs hsp
    | some pp =>
      simp [parseLine, hne, hs, afterFirstTot]
  · intro raw hne hdot
    have hs : splitOnFirst ['.'] (stripWs raw) = none :=
      (splitOnFirst_single_none_iff '.' _).mpr hdot
    simp [parseLine, hne, hs]

theorem c5_witness :
    ((∀ l ∈ (["1. A".data, [], "B".data] : List Str), '\n' ∉ l) ∧
      get_high_yield_concepts (joinLines ["1. A".data, [], "B".data]) 5 =
        ((["1. A".data, [], "B".data] : List Str).filterMap parseLine).take 5) ∧
    (stripWs "  ".data = [] ∧ parseLine "  ".data = none) ∧
    (stripWs "3. A".data ≠ [] ∧ '.' ∈ stripWs "3. A".data ∧
      parseLine "3. A".data = some (stripWs (afterFirstTot ['.'] (stripWs "3. A".data)))) ∧
    (stripWs "NoDot".data ≠ [] ∧ '.' ∉ stripWs "NoDot".data ∧
      parseLine "NoDot".data = some (stripWs "NoDot".data)) :=
  ⟨⟨by decide, c5_concept_line_parsing.2.2.1 _ 5 (by decide)⟩,
   ⟨by decide, c5_concept_line_parsing.2.2.2.1 _ (by decide)⟩,
   ⟨by decide, by decide, c5_concept_line_parsing.2.2.2.2.1 _ (by decide) (by decide)⟩,
   ⟨by decide, by decide, c5_concept_line_parsing.2.2.2.2.2 _ (by decide) (by decide)⟩⟩

/-- C6: the concept list is truncated to the first `num_questions` entries,
so its length never exceeds the request; when the response parses to no
more than the requested number of lines the whole parsed list is returned
unchanged and no error arises. -/
theorem c6_truncation :
    (∀ (text : Str) (n : Nat), (get_high_yield_concepts text n).length ≤ n) ∧
    ∀ (text : Str) (n : Nat),
      ((pySplitlines text).filterMap parseLine).length ≤ n →
      get_high_yield_concepts text n = (pySplitlines text).filterMap parseLine := by
  constructor
  · intro text n
    unfold get_high_yield_concepts
    rw [List.length_take]
    exact Nat.min_le_left _ _
  · intro text n h
    unfold get_high_yield_concepts
    exact List.take_of_length_le h

theorem c6_witness :
    ((pySplitlines "1. A\n2. B".data).filterMap parseLine).length ≤ 5 ∧
    get_high_yield_concepts "1. A\n2. B".data 5 =
      (pySplitlines "1. A\n2. B".data).filterMap parseLine :=
  ⟨by decide, c6_truncation.2 _ 5 (by decide)⟩

/-- C3 counterexample: a payload that is a fenced block with a leading
"json" tag whose JSON body itself contains the word "json".  The source
hands the parser the text between the first and second occurrences of
"json", not the text after the first occurrence as the claim states, so
the two extractions differ on this payload. -/
theorem c3_counterexample :
    extract_payload payloadC3 = " [\"".data ∧
    claimedExtractC3 payloadC3 = " [\"json\"] ".data ∧
    extract_payload payloadC3 ≠ claimedExtractC3 payloadC3 :=
  ⟨by decide, by decide, by decide⟩

/-- C3 amended: when the raw payload contains "json", the text handed to
the JSON parser is the substring after the first occurrence of "json",
truncated at the next occurrence of "json" when there is one, and then
truncated before the next closing fence marker; a payload without "json"
is handed over whole. -/
theorem c3_extraction_amended (q : Str) :
    (containsSub jsonTok q = true →
      extract_payload q =
        beforeFirstOr fenceTok (beforeFirstOr jsonTok (afterFirstTot jsonTok q))) ∧
    (containsSub jsonTok q = false → extract_payload q = q) := by
  constructor
  · intro h
    have hmid : pySplitGet1 jsonTok q = beforeFirstOr jsonTok (afterFirstTot jsonTok q) := by
      cases h1 : splitOnFirst jsonTok q with
      | none => simp [containsSub, h1] at h
      | some pp =>
        obtain ⟨pre, post⟩ := pp
        cases h2 : splitOnFirst jsonTok post with
        | none => simp [pySplitGet1, beforeFirstOr, afterFirstTot, h1, h2]
        | some pp2 => simp [pySplitGet1, beforeFirstOr, afterFirstTot, h1, h2]
    simp [extract_payload, h, hmid]
  · intro h
    simp [extract_payload, h]

theorem c3_witness :
    (containsSub jsonTok "```json \"x\" ```".data = true ∧
      extract_payload "```json \"x\" ```".data =
        beforeFirstOr fenceTok
          (beforeFirstOr jsonTok (afterFirstTot jsonTok "```json \"x\" ```".data))) ∧
    (containsSub jsonTok "\x7b\"a\": 1\x7d".data = false ∧
      extract_payload "\x7b\"a\": 1\x7d".data = "\x7b\"a\": 1\x7d".data) :=
  ⟨⟨by decide, (c3_extraction_amended _).1 (by decide)⟩,
   ⟨by decide, (c3_extraction_amended _).2 (by decide)⟩⟩

/-- C7: with an empty payload list the loop body never runs, the save line
is reached, and the persisted presentation holds zero slides. -/
theorem c7_empty_questions :
    ∀ (loads : Str → Option Question) (subject : Str),
      create_ppt_for_subject loads subject [] =
        Except.ok { path := deckPath subject, slides := [] } := by
  intro loads subject
  rfl

/-- C8: when processing any payload of the sequence raises an exception,
the save line of `create_ppt_for_subject` is never reached, so no file is
written for the subject and every slide rendered earlier is discarded. -/
theorem c8_failure_aborts_save :
    ∀ (loads : Str → Option Question) (subject : Str) (questions : List Str) (q0 : Str),
      q0 ∈ questions →
      (∃ e, renderOne loads q0 = Except.error e) →
      ∀ deck : SavedDeck,
        create_ppt_for_subject loads subject questions ≠ Except.ok deck := by
  intro loads subject questions q0 hmem _hfail deck hcon
  cases questions with
  | nil => exact absurd hmem (List.not_mem_nil q0)
  | cons q rest =>
    cases hr : renderOne loads q with
    | ok s =>
      unfold renderOne at hr
      cases hp : parsePayload loads q <;> rw [hp] at hr <;> exact Except.noConfusion hr
    | error e =>
      simp [create_ppt_for_subject, buildSlides, hr] at hcon

theorem c8_witness :
    ("x".data ∈ ["x".data]) ∧
    (∃ e, renderOne loadsNone "x".data = Except.error e) ∧
    ∀ deck : SavedDeck,
      create_ppt_for_subject loadsNone "renal".data ["x".data] ≠ Except.ok deck :=
  ⟨List.mem_cons_self _ _, ⟨PyError.jsonDecodeError, by decide⟩,
   c8_failure_aborts_save loadsNone "renal".data ["x".data] "x".data
     (List.mem_cons_self _ _) ⟨PyError.jsonDecodeError, by decide⟩⟩

/-- C1: the claim describes the intended plain slide, but the call in
`create_ppt_for_subject` passes the loop index positionally into the
`highlight` parameter while also passing `highlight` by keyword, so the
invocation raises TypeError on every parsed payload and never produces a
slide.  The first conjunct evaluates the embedded pipeline at a concrete
well-formed payload and reaches exactly that error; the remaining
conjuncts show that `add_slide_with_content` itself, with highlighting
and explanations off, renders the stem paragraph, one normal-coloured
paragraph per option, and the blank separator, never using the highlight
colour, which is the behaviour the claim and the surrounding docstring
describe. -/
theorem c1_invocation_type_error :
    create_ppt_for_subject loadsDemo "cardiology".data [payloadDemo] =
      Except.error PyError.typeErrorDuplicateArgument ∧
    add_slide_with_content qDemo false false =
      Except.ok [mkStemPara "Which vessel?".data,
        mkOptionPara "B".data false "A".data "Aorta".data,
        mkOptionPara "B".data false "B".data "IVC".data,
        blankPara] ∧
    (mkOptionPara "B".data false "A".data "Aorta".data).colorRGB = some normalColor ∧
    (mkOptionPara "B".data false "B".data "IVC".data).colorRGB = some normalColor ∧
    normalColor ≠ highlightColor :=
  ⟨by decide, by decide, by decide, by decide, by decide⟩

theorem incorrectParas_ok (explan : List (Str × Str)) (ca : Str) :
    ∀ opts : List (Str × Str),
      (∀ p ∈ opts, (dictGet? explan p.1).isSome = true) →
      incorrectParas explan ca opts =
        Except.ok ((opts.filter (fun p => !(p.1 = ca))).map
          (fun p => mkIncorrectPara p.1 ((dictGet? explan p.1).getD []))) := by
  intro opts
  induction opts with
  | nil => intro _; rfl
  | cons p rest ih =>
    intro hall
    obtain ⟨l, t⟩ := p
    have ihr := ih (fun p hp => hall p (List.mem_cons_of_mem _ hp))
    by_cases hl : l = ca
    · rw [incorrectParas, if_pos hl, ihr, List.filter_cons]
      simp [hl]
    · obtain ⟨e, he⟩ := Option.isSome_iff_exists.mp (hall (l, t) (List.mem_cons_self _ _))
      rw [incorrectParas, if_neg hl]
      simp only [he, ihr, List.filter_cons]
      simp [hl, he]

theorem add_slide_true_true_ok (q : Question) (hwf : WellFormed q) :
    add_slide_with_content q true true = Except.ok (renderC2Amended q) := by
  obtain ⟨_hne, hca, hall⟩ := hwf
  obtain ⟨p0, hp0mem, hp0eq⟩ := List.mem_map.mp hca
  have hsome : (dictGet? q.explanation q.correct_answer).isSome = true := by
    have h := hall p0 hp0mem
    rwa [hp0eq] at h
  obtain ⟨e, he⟩ := Option.isSome_iff_exists.mp hsome
  have hinc := incorrectParas_ok q.explanation q.correct_answer q.options hall
  simp only [add_slide_with_content, if_true, he, hinc]
  simp only [renderC2Amended, mkOptionPara, mkCorrectPara, mkIncorrectPara, explGetD, he,
    Option.getD_some, eq_self_iff_true, true_and, Except.ok.injEq]

theorem take_map_append {α β : Type} (xs : List α) (f : α → β) (rest : List β) :
    ((xs.map f) ++ rest).take xs.length = xs.map f := by
  rw [← List.length_map xs f, List.take_left]

theorem drop_map_append {α β : Type} (xs : List α) (f : α → β) (rest : List β) (k : Nat) :
    ((xs.map f) ++ rest).drop (xs.length + k) = rest.drop k := by
  rw [← List.length_map xs f, List.drop_append]

theorem drop_one_cons {α : Type} (a : α) (l : List α) : (a :: l).drop 1 = l := rfl

theorem drop_add_three_cons {α : Type} (a : α) (l : List α) (n : Nat) :
    (a :: l).drop (n + 3) = l.drop (n + 2) := rfl

theorem drop_two_cons_cons {α : Type} (a b : α) (l : List α) :
    (a :: b :: l).drop 2 = l := rfl

/-- C2 counterexample: on the well-formed payload `qCE`, whose second
option label "B " differs from the correct answer "B" only by a trailing
space, the source highlights both option paragraphs, while the claim
requires exactly the paragraph of the label equal to the correct answer
to be highlighted.  The colour lists below differ in the third position:
the code renders the "B " option in the highlight colour, the claimed
rendering in the normal colour. -/
theorem c2_counterexample :
    add_slide_with_content qCE true true ≠ Except.ok (renderC2Claim qCE) ∧
    (add_slide_with_content qCE true true).map (fun ps => ps.map Paragraph.colorRGB) =
      Except.ok [some normalColor, some highlightColor, some highlightColor, none,
        some highlightColor, some normalColor] ∧
    (renderC2Claim qCE).map Paragraph.colorRGB =
      [some normalColor, some highlightColor, some normalColor, none,
        some highlightColor, some normalColor] :=
  ⟨by decide, by decide, by decide⟩

/-- C2 amended: for every well-formed payload the highlighted and
explained variant renders the stem, then one paragraph per option whose
colour is the highlight colour exactly when its stripped label equals the
stripped correct answer, a blank paragraph, then the explanation of the
correct choice in the highlight colour with every occurrence of
"Correct. " removed, then one explanation per label not exactly equal to
the correct answer in the normal colour with every occurrence of
"Incorrect. " removed, explanations at 12pt against 16pt for the choices,
exactly the content of `renderC2Amended`. -/
theorem c2_highlight_explained (q : Question) (hwf : WellFormed q) :
    add_slide_with_content q true true = Except.ok (renderC2Amended q) :=
  add_slide_true_true_ok q hwf

theorem c2_witness :
    WellFormed qDemo ∧
    add_slide_with_content qDemo true true = Except.ok (renderC2Amended qDemo) :=
  ⟨by decide, c2_highlight_explained qDemo (by decide)⟩

/-- C10: with highlighting on, an option paragraph receives the highlight
colour exactly when its stripped label equals the stripped correct
answer, while the incorrect-choice explanation paragraphs are emitted for
exactly the labels not exactly equal to the correct answer; hence a label
differing from the correct answer only in surrounding whitespace is both
rendered in the highlight colour and given an incorrect-choice
explanation paragraph. -/
theorem c10_strip_versus_exact (q : Question) (hwf : WellFormed q) :
    ∀ ps, add_slide_with_content q true true = Except.ok ps →
      (((ps.drop 1).take q.options.length).map Paragraph.colorRGB =
        q.options.map (fun p => some (if stripWs p.1 = stripWs q.correct_answer
          then highlightColor else normalColor))) ∧
      ((ps.drop (q.options.length + 3)).map Paragraph.text =
        (q.options.filter (fun p => !(p.1 = q.correct_answer))).map
          (fun p => p.1 ++ ": ".data ++
            pyDeleteAll "Incorrect. ".data (explGetD q p.1) ++ "\n".data)) ∧
      (∀ p ∈ q.options, p.1 ≠ q.correct_answer →
        stripWs p.1 = stripWs q.correct_answer →
          some highlightColor ∈ ((ps.drop 1).take q.options.length).map Paragraph.colorRGB ∧
          (p.1 ++ ": ".data ++ pyDeleteAll "Incorrect. ".data (explGetD q p.1) ++ "\n".data)
            ∈ (ps.drop (q.options.length + 3)).map Paragraph.text) := by
  intro ps hps
  have hps2 : ps = renderC2Amended q := by
    have h := add_slide_true_true_ok q hwf
    rw [h] at hps
    exact (Except.ok.inj hps).symm
  subst hps2
  have hA : (((renderC2Amended q).drop 1).take q.options.length).map Paragraph.colorRGB =
      q.options.map (fun p => some (if stripWs p.1 = stripWs q.correct_answer
        then highlightColor else normalColor)) := by
    rw [renderC2Amended, List.cons_append, drop_one_cons, take_map_append, List.map_map]
    rfl
  have hB : ((renderC2Amended q).drop (q.options.length + 3)).map Paragraph.text =
      (q.options.filter (fun p => !(p.1 = q.correct_answer))).map
        (fun p => p.1 ++ ": ".data ++
          pyDeleteAll "Incorrect. ".data (explGetD q p.1) ++ "\n".data) := by
    rw [renderC2Amended, List.cons_append, drop_add_three_cons, drop_map_append,
      drop_two_cons_cons, List.map_map]
    rfl
  refine ⟨hA, hB, fun p hp hne hstrip => ⟨?_, ?_⟩⟩
  · rw [hA]
    exact List.mem_map.mpr ⟨p, hp, by simp [hstrip]⟩
  · rw [hB]
    refine List.mem_map_of_mem _ (List.mem_filter.mpr ⟨hp, by simp [hne]⟩)

theorem c10_witness :
    WellFormed qCE ∧
    (∀ ps, add_slide_with_content qCE true true = Except.ok ps →
      (((ps.drop 1).take qCE.options.length).map Paragraph.colorRGB =
        qCE.options.map (fun p => some (if stripWs p.1 = stripWs qCE.correct_answer
          then highlightColor else normalColor))) ∧
      ((ps.drop (qCE.options.length + 3)).map Paragraph.text =
        (qCE.options.filter (fun p => !(p.1 = qCE.correct_answer))).map
          (fun p => p.1 ++ ": ".data ++
            pyDeleteAll "Incorrect. ".data (explGetD qCE p.1) ++ "\n".data)) ∧
      (∀ p ∈ qCE.options, p.1 ≠ qCE.correct_answer →
        stripWs p.1 = stripWs qCE.correct_answer →
          some highlightColor ∈
            ((ps.drop 1).take qCE.options.length).map Paragraph.colorRGB ∧
          (p.1 ++ ": ".data ++
              pyDeleteAll "Incorrect. ".data (explGetD qCE p.1) ++ "\n".data)
            ∈ (ps.drop (qCE.options.length + 3)).map Paragraph.text)) :=
  ⟨by decide, c10_strip_versus_exact qCE (by decide)⟩

